import Mathlib

/-!
A shallow embedding of the emseries storage engine (`src/series.rs`,
`src/series/indexing.rs`, `src/series/indexing/index_by_time.rs`,
`src/series/indexing/index_by_all_tags.rs`,
`src/series/indexing/index_selected_tags.rs`, `src/types.rs`,
`src/criteria.rs`).

Modelling conventions:
* `DateTimeTz` (the timestamp type) is external to the crate (its module is
  not part of the storage engine sources); the spec requires only an opaque,
  totally ordered value.  The embedding is parametric in a linearly ordered
  type `τ` of timestamps.
* `UniqueId` is a 128-bit UUID with a total order; it is modelled as `Nat`.
  `put` generates a fresh id via `UniqueId::new`; the embedding passes the
  generated id as an explicit argument.
* A `Recordable` value exposes exactly `timestamp()` and `tags()`; it is
  modelled as a structure `RData` with a timestamp, a tag list, and an
  opaque payload standing for the rest of the record's fields.
* `AHashMap` (primary map, tag maps) is modelled as an association list;
  its iteration order is unspecified in the source (hashing with random
  seeds), so the association-list order stands for one arbitrary iteration
  order and properties that the code guarantees must hold for every such
  list.  `BTreeMap` is modelled as an association list sorted by key.
* Rust panics (`unreachable!`, `.expect`) are modelled as `Option.none`.
* The append-only file is modelled as the list of appended `LogEntry`
  values; `write_line` is the (infallible here) append of one entry.
-/

namespace Emseries

/-- Unique record identifier (`types.rs`, `UniqueId`): an opaque, totally
ordered value; modelled as `Nat`. -/
abbrev UniqueId := Nat

/-- The capability surface of a `Recordable` (`types.rs`): a timestamp and a
list of string tags, plus an opaque payload for the record's other fields. -/
structure RData (τ π : Type) where
  ts : τ
  tags : List String
  payload : π
deriving DecidableEq

/-- `types.rs` `DeletableRecord<T>`: the persisted envelope; `data = none`
is a tombstone. -/
structure LogEntry (τ π : Type) where
  id : UniqueId
  data : Option (RData τ π)
deriving DecidableEq

/-- The primary map `element_for_key : AHashMap<UniqueId, T>` modelled as an
association list in an arbitrary iteration order. -/
abbrev PrimaryMap (τ π : Type) := List (UniqueId × RData τ π)

/-- Hash-map lookup (`element_for_key.get`). -/
def mapGet {τ π : Type} : PrimaryMap τ π → UniqueId → Option (RData τ π)
  | [], _ => none
  | p :: m, i => if p.1 = i then some p.2 else mapGet m i

/-- Hash-map insert-or-replace (`HashMap::insert` / occupied-entry insert):
replaces in place when the key is present, otherwise appends. -/
def mapSet {τ π : Type} : PrimaryMap τ π → UniqueId → RData τ π → PrimaryMap τ π
  | [], i, v => [(i, v)]
  | p :: m, i, v => if p.1 = i then (i, v) :: m else p :: mapSet m i v

/-- Hash-map removal (`HashMap::remove`). -/
def mapErase {τ π : Type} : PrimaryMap τ π → UniqueId → PrimaryMap τ π
  | [], _ => []
  | p :: m, i => if p.1 = i then mapErase m i else p :: mapErase m i

/-- Model of `slice::binary_search` on an id bucket: `.ok i` when the id is
present at position `i`, `.error i` with the insertion point otherwise.
(On the sorted, duplicate-free buckets the code maintains, this is exactly
the contract of `binary_search`.) -/
def binarySearch : List UniqueId → UniqueId → Except Nat Nat
  | [], _ => .error 0
  | x :: b, i =>
    if i = x then .ok 0
    else
      match binarySearch b i with
      | .ok j => .ok (j + 1)
      | .error j => .error (if x < i then j + 1 else j)

/-- Bucket insertion (`insert_raw` in the index modules): binary-search for
the insertion point, then splice the id in. -/
def bucketInsert (b : List UniqueId) (i : UniqueId) : List UniqueId :=
  b.insertIdx (match binarySearch b i with | .ok j => j | .error j => j) i

/-- Bucket removal (`remove_raw` in the index modules): binary-search for the
exact position; absence fires the `.expect` (a panic, modelled as `none`). -/
def bucketRemove (b : List UniqueId) (i : UniqueId) : Option (List UniqueId) :=
  match binarySearch b i with
  | .ok j => some (b.eraseIdx j)
  | .error _ => none

/-- `IndexByTime`'s `BTreeMap<DateTimeTz, Vec<UniqueId>>` modelled as an
association list sorted by timestamp. -/
abbrev TimeIndex (τ : Type) := List (τ × List UniqueId)

/-- `IndexByTime::insert_raw`: `entry(timestamp).or_default()` followed by the
binary-search splice, keeping the key list sorted. -/
def btUpsert {τ : Type} [LinearOrder τ] : TimeIndex τ → τ → UniqueId → TimeIndex τ
  | [], t, i => [(t, bucketInsert [] i)]
  | (k, b) :: m, t, i =>
    if t < k then (t, bucketInsert [] i) :: (k, b) :: m
    else if t = k then (k, bucketInsert b i) :: m
    else (k, b) :: btUpsert m t i

/-- `BTreeMap::get_mut` on the time index. -/
def btFind {τ : Type} [DecidableEq τ] : TimeIndex τ → τ → Option (List UniqueId)
  | [], _ => none
  | (k, b) :: m, t => if k = t then some b else btFind m t

/-- `IndexByTime::remove_raw`: a missing bucket or a missing id fires an
`.expect` (panic, modelled as `none`). -/
def btRemove {τ : Type} [DecidableEq τ] (m : TimeIndex τ) (t : τ) (i : UniqueId) :
    Option (TimeIndex τ) :=
  match btFind m t with
  | none => none
  | some b =>
    (bucketRemove b i).map (fun b' => m.map (fun p => if p.1 = t then (t, b') else p))

/-- The tag maps `HashMap<Box<str>, Vec<UniqueId>>` of the tag indexes,
modelled as association lists (hash order arbitrary). -/
abbrev TagIndex := List (String × List UniqueId)

/-- `HashMap::get` on a tag index. -/
def tiFind : TagIndex → String → Option (List UniqueId)
  | [], _ => none
  | (k, b) :: m, t => if k = t then some b else tiFind m t

/-- `IndexByAllTags::insert_raw`: `entry(tag).or_default()` then splice. -/
def tiUpsertAll : TagIndex → String → UniqueId → TagIndex
  | [], t, i => [(t, bucketInsert [] i)]
  | (k, b) :: m, t, i =>
    if k = t then (k, bucketInsert b i) :: m else (k, b) :: tiUpsertAll m t i

/-- `IndexBySelectedTags::insert_raw`: only pre-declared buckets are updated;
an untracked tag is skipped. -/
def tiInsertSel : TagIndex → String → UniqueId → TagIndex
  | [], _, _ => []
  | (k, b) :: m, t, i =>
    if k = t then (k, bucketInsert b i) :: m else (k, b) :: tiInsertSel m t i

/-- `IndexByAllTags::remove_raw`: a missing bucket or id fires `.expect`. -/
def tiRemoveAll : TagIndex → String → UniqueId → Option TagIndex
  | [], _, _ => none
  | (k, b) :: m, t, i =>
    if k = t then (bucketRemove b i).map (fun b' => (k, b') :: m)
    else (tiRemoveAll m t i).map (fun m' => (k, b) :: m')

/-- `IndexBySelectedTags::remove_raw`: a missing bucket is skipped; a present
bucket without the id fires `.expect`. -/
def tiRemoveSel : TagIndex → String → UniqueId → Option TagIndex
  | [], _, _ => some []
  | (k, b) :: m, t, i =>
    if k = t then (bucketRemove b i).map (fun b' => (k, b') :: m)
    else (tiRemoveSel m t i).map (fun m' => (k, b) :: m')

/-- The four `Indexer` strategies (`indexing.rs` and its submodules), as the
tagged variant the engine holds one instance of. -/
inductive IndexState (τ : Type) where
  | noIndex
  | byTime (ids_by_time : TimeIndex τ)
  | byAllTags (ids_by_tag : TagIndex)
  | bySelectedTags (ids_by_tag : TagIndex)
deriving DecidableEq

/-- `Indexer::insert`, dispatched over the strategy. -/
def indexerInsert {τ π : Type} [LinearOrder τ] :
    IndexState τ → UniqueId → RData τ π → IndexState τ
  | .noIndex, _, _ => .noIndex
  | .byTime m, i, r => .byTime (btUpsert m r.ts i)
  | .byAllTags m, i, r => .byAllTags (r.tags.foldl (fun m' t => tiUpsertAll m' t i) m)
  | .bySelectedTags m, i, r =>
    .bySelectedTags (r.tags.foldl (fun m' t => tiInsertSel m' t i) m)

/-- `Indexer::remove`, dispatched over the strategy; panics become `none`. -/
def indexerRemove {τ π : Type} [LinearOrder τ] :
    IndexState τ → UniqueId → RData τ π → Option (IndexState τ)
  | .noIndex, _, _ => some .noIndex
  | .byTime m, i, r => (btRemove m r.ts i).map .byTime
  | .byAllTags m, i, r =>
    (r.tags.foldlM (fun m' t => tiRemoveAll m' t i) m).map .byAllTags
  | .bySelectedTags m, i, r =>
    (r.tags.foldlM (fun m' t => tiRemoveSel m' t i) m).map .bySelectedTags

/-- `Indexer::update`: each strategy short-circuits when its indexed
attribute (timestamp, resp. tag list) is unchanged, otherwise removes the
old entries and inserts the new ones. -/
def indexerUpdate {τ π : Type} [LinearOrder τ] (ix : IndexState τ) (i : UniqueId)
    (old new : RData τ π) : Option (IndexState τ) :=
  match ix with
  | .noIndex => some .noIndex
  | .byTime m =>
    if old.ts = new.ts then some (.byTime m)
    else (indexerRemove (.byTime m) i old).map (fun ix' => indexerInsert ix' i new)
  | .byAllTags m =>
    if old.tags = new.tags then some (.byAllTags m)
    else (indexerRemove (.byAllTags m) i old).map (fun ix' => indexerInsert ix' i new)
  | .bySelectedTags m =>
    if old.tags = new.tags then some (.bySelectedTags m)
    else (indexerRemove (.bySelectedTags m) i old).map (fun ix' => indexerInsert ix' i new)

/-- One end of a `RangeBounds<DateTimeTz>`. -/
inductive Bound (τ : Type) where
  | unbounded
  | incl (t : τ)
  | excl (t : τ)
deriving DecidableEq

/-- A timestamp range (the `impl RangeBounds<DateTimeTz>` argument of
`search_range`/`retrieve_range`). -/
structure TsRange (τ : Type) where
  lo : Bound τ
  hi : Bound τ
deriving DecidableEq

/-- `RangeBounds::contains`. -/
def TsRange.contains {τ : Type} [LinearOrder τ] (r : TsRange τ) (t : τ) : Bool :=
  (match r.lo with
   | .unbounded => true
   | .incl a => decide (a ≤ t)
   | .excl a => decide (a < t)) &&
  (match r.hi with
   | .unbounded => true
   | .incl b => decide (t ≤ b)
   | .excl b => decide (t < b))

/-- The sort key of `NoIndex::retrieve_range`'s
`sort_unstable_by_key(|tr| tr.1.timestamp())`. -/
def tsLe {τ π : Type} [LinearOrder τ] (a b : UniqueId × RData τ π) : Prop :=
  a.2.ts ≤ b.2.ts

instance {τ π : Type} [LinearOrder τ] : DecidableRel (tsLe (τ := τ) (π := π)) :=
  fun a b => inferInstanceAs (Decidable (a.2.ts ≤ b.2.ts))

instance {τ π : Type} [LinearOrder τ] : IsTotal (UniqueId × RData τ π) tsLe :=
  ⟨fun a b => le_total a.2.ts b.2.ts⟩

instance {τ π : Type} [LinearOrder τ] : IsTrans (UniqueId × RData τ π) tsLe :=
  ⟨fun _ _ _ h h' => le_trans h h'⟩

/-- `NoIndex::retrieve_range`: full scan, filter by range membership, then an
unstable sort keyed on the timestamp alone.  The sort is modelled by
`insertionSort`; ties keep the (arbitrary) map iteration order, matching the
absence of any tie-breaking guarantee in `sort_unstable_by_key`. -/
def scanRange {τ π : Type} [LinearOrder τ] (m : PrimaryMap τ π) (rg : TsRange τ) :
    List (UniqueId × RData τ π) :=
  List.insertionSort tsLe (m.filter (fun p => rg.contains p.2.ts))

/-- `NoIndex::retrieve_tagged`: full scan retaining records carrying the tag
(no sort). -/
def scanTagged {τ π : Type} (m : PrimaryMap τ π) (tag : String) :
    List (UniqueId × RData τ π) :=
  m.filter (fun p => p.2.tags.contains tag)

/-- The join of a list of bucket ids against the primary map
(`element_for_key.get(id).unwrap_or_else(|| unreachable!(..))`); a missing id
is the `unreachable!` panic, modelled as `none`. -/
def joinIds {τ π : Type} : PrimaryMap τ π → List UniqueId →
    Option (List (UniqueId × RData τ π))
  | _, [] => some []
  | m, i :: ids =>
    match mapGet m i with
    | none => none
    | some v => (joinIds m ids).map (fun out => (i, v) :: out)

/-- `Indexer::retrieve_range` per strategy: `IndexByTime` walks the range of
its ordered map and flattens the buckets, joining against the primary map;
the other strategies delegate to the `NoIndex` full scan. -/
def retrieveRange {τ π : Type} [LinearOrder τ] (ix : IndexState τ)
    (m : PrimaryMap τ π) (rg : TsRange τ) : Option (List (UniqueId × RData τ π)) :=
  match ix with
  | .noIndex => some (scanRange m rg)
  | .byTime tm => joinIds m ((tm.filter (fun p => rg.contains p.1)).flatMap (fun p => p.2))
  | .byAllTags _ => some (scanRange m rg)
  | .bySelectedTags _ => some (scanRange m rg)

/-- `Indexer::retrieve_tagged` per strategy: direct bucket lookup for the tag
indexes (`IndexBySelectedTags` falls back to the full scan for untracked
tags), full scan for the others. -/
def retrieveTagged {τ π : Type} [LinearOrder τ] (ix : IndexState τ)
    (m : PrimaryMap τ π) (tag : String) : Option (List (UniqueId × RData τ π)) :=
  match ix with
  | .noIndex => some (scanTagged m tag)
  | .byTime _ => some (scanTagged m tag)
  | .byAllTags ti =>
    match tiFind ti tag with
    | some b => joinIds m b
    | none => some []
  | .bySelectedTags ti =>
    match tiFind ti tag with
    | some b => joinIds m b
    | none => some (scanTagged m tag)

/-- The error kinds `Series` surfaces (`io::ErrorKind::AlreadyExists` from
`put`, `io::ErrorKind::NotFound` from `update`/`delete`). -/
inductive SeriesError where
  | alreadyExists
  | notFound
deriving DecidableEq

/-- The `Series` state: primary map, one indexer, and the backing file
contents (the sequence of appended log entries). -/
structure SeriesState (τ π : Type) where
  element_for_key : PrimaryMap τ π
  indexer : IndexState τ
  log : List (LogEntry τ π)
deriving DecidableEq

/-- One replay step of `load_file`: `Some` inserts/overwrites, `None`
(tombstone) removes. -/
def loadStep {τ π : Type} (m : PrimaryMap τ π) (e : LogEntry τ π) : PrimaryMap τ π :=
  match e.data with
  | some v => mapSet m e.id v
  | none => mapErase m e.id

/-- The fold of `load_file` over already-decoded entries in file order. -/
def loadFold {τ π : Type} (entries : List (LogEntry τ π)) : PrimaryMap τ π :=
  entries.foldl loadStep []

/-- `Series::load_file` over raw lines: each line is decoded; the first
malformed line aborts the whole load with the deserialization error. -/
def load_file {τ π L : Type} (decode : L → Except Unit (LogEntry τ π))
    (acc : PrimaryMap τ π) : List L → Except Unit (PrimaryMap τ π)
  | [] => .ok acc
  | l :: ls =>
    match decode l with
    | .error e => .error e
    | .ok r => load_file decode (loadStep acc r) ls

/-- `Series::open_with_indexer`: replay the file into the primary map, then
bulk-populate the indexer by inserting every surviving pair once, in map
iteration order. -/
def open_with_indexer {τ π : Type} [LinearOrder τ] (entries : List (LogEntry τ π))
    (indexer : IndexState τ) : SeriesState τ π :=
  let m := loadFold entries
  { element_for_key := m,
    indexer := m.foldl (fun ix p => indexerInsert ix p.1 p.2) indexer,
    log := entries }

namespace Series

/-- `Series::put`: `id` is the freshly generated `UniqueId` of
`Record::new`.  The vacant/occupied check happens at the map entry; on the
vacant path the map, then the indexer, then the file are updated. -/
def put {τ π : Type} [LinearOrder τ] (s : SeriesState τ π) (id : UniqueId)
    (entry : RData τ π) : Except SeriesError UniqueId × SeriesState τ π :=
  match mapGet s.element_for_key id with
  | some _ => (.error .alreadyExists, s)
  | none =>
    (.ok id,
     { element_for_key := mapSet s.element_for_key id entry,
       indexer := indexerInsert s.indexer id entry,
       log := s.log ++ [⟨id, some entry⟩] })

/-- `Series::update`: a missing id is `NotFound`.  On the occupied path the
source first replaces the map entry via `oe.insert(record.data.clone())` and
then calls `self.indexer.update(&record.id, oe.get(), &record.data)`; after
the replacement `oe.get()` yields the newly inserted value, so the indexer
receives the new value in both the `old` and `new` positions. -/
def update {τ π : Type} [LinearOrder τ] (s : SeriesState τ π) (id : UniqueId)
    (data : RData τ π) : Option (Except SeriesError Unit × SeriesState τ π) :=
  match mapGet s.element_for_key id with
  | none => some (.error .notFound, s)
  | some _ =>
    (indexerUpdate s.indexer id data data).map (fun ix' =>
      (.ok (),
       { element_for_key := mapSet s.element_for_key id data,
         indexer := ix',
         log := s.log ++ [⟨id, some data⟩] }))

/-- `Series::delete`: a missing id is `NotFound`; otherwise the map entry is
removed, the indexer's `remove` runs (it may panic, modelled as `none`), and
a tombstone line is appended. -/
def delete {τ π : Type} [LinearOrder τ] (s : SeriesState τ π) (id : UniqueId) :
    Option (Except SeriesError Unit × SeriesState τ π) :=
  match mapGet s.element_for_key id with
  | none => some (.error .notFound, s)
  | some prev =>
    (indexerRemove s.indexer id prev).map (fun ix' =>
      (.ok (),
       { element_for_key := mapErase s.element_for_key id,
         indexer := ix',
         log := s.log ++ [⟨id, none⟩] }))

/-- `Series::search_range`: delegates to the indexer's `retrieve_range`. -/
def search_range {τ π : Type} [LinearOrder τ] (s : SeriesState τ π) (rg : TsRange τ) :
    Option (List (UniqueId × RData τ π)) :=
  retrieveRange s.indexer s.element_for_key rg

/-- `Series::search_tagged` behaviour: delegates to `retrieve_tagged`. -/
def search_tagged {τ π : Type} [LinearOrder τ] (s : SeriesState τ π) (tag : String) :
    Option (List (UniqueId × RData τ π)) :=
  retrieveTagged s.indexer s.element_for_key tag

end Series

/-- A mutation request against an open `Series`. -/
inductive Op (τ π : Type) where
  | put (id : UniqueId) (entry : RData τ π)
  | update (id : UniqueId) (data : RData τ π)
  | delete (id : UniqueId)
deriving DecidableEq

/-- Apply one operation; failed operations leave the state unchanged (the
caller keeps the series), panics abort (`none`). -/
def applyOp {τ π : Type} [LinearOrder τ] (s : SeriesState τ π) :
    Op τ π → Option (SeriesState τ π)
  | .put id e => some (Series.put s id e).2
  | .update id d => (Series.update s id d).map (fun r => r.2)
  | .delete id => (Series.delete s id).map (fun r => r.2)

/-- Run a sequence of operations. -/
def runOps {τ π : Type} [LinearOrder τ] (s : SeriesState τ π) :
    List (Op τ π) → Option (SeriesState τ π)
  | [] => some s
  | op :: ops => (applyOp s op).bind (fun s' => runOps s' ops)

/-! ### Criteria (`criteria.rs`) -/

/-- The `Criteria` trait: `apply(record) -> bool`. -/
class Criteria (τ : Type) (C : Type) where
  apply : C → {π : Type} → RData τ π → Bool

/-- `StartTime{time, incl}`. -/
structure StartTime (τ : Type) where
  time : τ
  incl : Bool

/-- `EndTime{time, incl}`. -/
structure EndTime (τ : Type) where
  time : τ
  incl : Bool

/-- `Tags{tags}`. -/
structure Tags where
  tags : List String

/-- `And{lside, rside}`. -/
structure And (A B : Type) where
  lside : A
  rside : B

/-- `Or{lside, rside}`.  The source defines this struct (documented as
"either of which may be matched") but provides no `impl Criteria for Or`;
accordingly there is no `Criteria` instance for it here. -/
structure Or (A B : Type) where
  lside : A
  rside : B

instance {τ : Type} [LinearOrder τ] : Criteria τ (StartTime τ) where
  apply c := fun {_} r => if c.incl then decide (r.ts ≥ c.time) else decide (r.ts > c.time)

instance {τ : Type} [LinearOrder τ] : Criteria τ (EndTime τ) where
  apply c := fun {_} r => if c.incl then decide (r.ts ≤ c.time) else decide (r.ts < c.time)

instance {τ : Type} : Criteria τ Tags where
  apply c := fun {_} r =>
    ((c.tags.map (fun v => r.tags.contains v)).filter (fun v => !v)).length == 0

instance {τ A B : Type} [Criteria τ A] [Criteria τ B] : Criteria τ (And A B) where
  apply c := fun {_} r => Criteria.apply c.lside r && Criteria.apply c.rside r

/-- `exact_time(time)`. -/
def exact_time {τ : Type} (time : τ) : And (StartTime τ) (EndTime τ) :=
  { lside := { time, incl := true }, rside := { time, incl := true } }

/-- `time_range(start, start_incl, end, end_incl)`. -/
def time_range {τ : Type} (start : τ) (start_incl : Bool) (stop : τ) (end_incl : Bool) :
    And (StartTime τ) (EndTime τ) :=
  { lside := { time := start, incl := start_incl },
    rside := { time := stop, incl := end_incl } }

/-- `Series::search`: full scan retaining the records the criteria accept. -/
def Series.search {τ π C : Type} [Criteria τ C] (s : SeriesState τ π) (criteria : C) :
    List (UniqueId × RData τ π) :=
  s.element_for_key.filter (fun p => Criteria.apply criteria p.2)

/-! ### Derived orders, invariants and concrete scenarios -/

/-- "Ascending timestamp, ties among equal timestamps broken by ascending
`UniqueId`": the ordering the spec asserts for `search_range` results. -/
def tsIdLt {τ π : Type} [LinearOrder τ] (a b : UniqueId × RData τ π) : Prop :=
  a.2.ts < b.2.ts ∨ (a.2.ts = b.2.ts ∧ a.1 < b.1)

instance {τ π : Type} [LinearOrder τ] : DecidableRel (tsIdLt (τ := τ) (π := π)) :=
  fun a b =>
    inferInstanceAs (Decidable (a.2.ts < b.2.ts ∨ (a.2.ts = b.2.ts ∧ a.1 < b.1)))

/-- Consistency of an `IndexByTime` structure with the primary map: sorted
key list, sorted buckets, every bucketed id live in the map under that
bucket's timestamp, and every live record bucketed under its timestamp.
All quantifiers are list-bounded, so the predicate is decidable. -/
def TIdxOk {τ π : Type} [LinearOrder τ] (m : PrimaryMap τ π) (tix : TimeIndex τ) : Prop :=
  (tix.map Prod.fst).Sorted (· < ·) ∧
  (∀ p ∈ tix, p.2.Sorted (· < ·)) ∧
  (∀ p ∈ tix, ∀ i ∈ p.2, (mapGet m i).map (fun v => v.ts) = some p.1) ∧
  (∀ q ∈ m, ∃ p ∈ tix, p.1 = q.2.ts ∧ q.1 ∈ p.2) ∧
  (m.map Prod.fst).Nodup

instance {τ π : Type} [LinearOrder τ] [DecidableEq π] (m : PrimaryMap τ π)
    (tix : TimeIndex τ) : Decidable (TIdxOk m tix) := by
  unfold TIdxOk
  infer_instance

/-- Scenario for the `Series::update` defect: a series opened on an empty
file with an `IndexByTime`, one record put at timestamp 1, then updated to
timestamp 2. -/
def updStart : SeriesState Nat Nat := open_with_indexer [] (.byTime [])

/-- The put-then-update operation sequence of the scenario. -/
def updOps : List (Op Nat Nat) := [Op.put 0 ⟨1, [], 0⟩, Op.update 0 ⟨2, [], 0⟩]

/-- A primary map holding two records with equal timestamps, listed with the
larger id first (one possible hash-map iteration order, and also the order
`put 1` then `put 0` produces). -/
def cexMap : PrimaryMap Nat Nat := [(1, ⟨5, [], 0⟩), (0, ⟨5, [], 0⟩)]

/-- One operation on a single sorted id bucket (the `insert_raw`/`remove_raw`
splices shared by the time and tag indexes). -/
inductive BOp where
  | ins (i : UniqueId)
  | rem (i : UniqueId)
deriving DecidableEq

/-- Run a sequence of bucket operations; a failed removal is the `.expect`
panic (`none`). -/
def runBucketOps : List UniqueId → List BOp → Option (List UniqueId)
  | b, [] => some b
  | b, .ins i :: ops => runBucketOps (bucketInsert b i) ops
  | b, .rem i :: ops =>
    match bucketRemove b i with
    | some b' => runBucketOps b' ops
    | none => none

/-- The claim's side conditions on a bucket-operation sequence: every
inserted id is absent at its insertion (distinct ids), every removed id is
present (previously inserted). -/
def validBucketOps : List UniqueId → List BOp → Bool
  | _, [] => true
  | b, .ins i :: ops => !b.contains i && validBucketOps (bucketInsert b i) ops
  | b, .rem i :: ops =>
    b.contains i &&
      match bucketRemove b i with
      | some b' => validBucketOps b' ops
      | none => false

/-! ### Theorems -/

/-- Claim C1 (code-bug evaluation).  After `put` at timestamp 1 followed by a
successful `update` to timestamp 2 under `IndexByTime`, `search_range` over
the range `[2, 2]` returns the empty id set while the full scan filtered by
the equivalent `time_range(2, true, 2, true)` criteria returns `{0}`: the
index/primary consistency the claim asserts fails. -/
theorem c1_index_scan_divergence :
    ((runOps updStart updOps).map (fun s =>
        (Series.search_range s ⟨Bound.incl 2, Bound.incl 2⟩,
         (Series.search s (time_range 2 true 2 true)).map Prod.fst))
      = some (some [], [0])) ∧
    ((runOps (open_with_indexer [] (.byAllTags []))
          [Op.put 0 ⟨1, ["a"], 0⟩, Op.update 0 ⟨1, ["b"], 0⟩]).map (fun s =>
        (Series.search_tagged s "b",
         (Series.search s (Tags.mk ["b"])).map Prod.fst))
      = some (some [], [0])) := by
  exact ⟨by decide, by decide⟩

/-- Claim C2 (code-bug evaluation).  After `put {ts := 1}` and a successful
`update` to `{ts := 2}` the primary-map entry holds the new value and exactly
one log line per operation was appended, but the time index still buckets the
id under timestamp 1: `Series::update` first replaces the entry
(`oe.insert`) and then reads `oe.get()`, so the indexer's `update` received
the new value as `old_value` instead of the previously stored one (which
would have moved the id to bucket 2). -/
theorem c2_update_old_value :
    (runOps updStart updOps).map (fun s =>
        (s.indexer, mapGet s.element_for_key 0, s.log))
      = some (.byTime [(1, [0])], some ⟨2, [], 0⟩,
              [⟨0, some ⟨1, [], 0⟩⟩, ⟨0, some ⟨2, [], 0⟩⟩]) := by decide

/-- Claim C10 (code-bug evaluation).  `put` at timestamp 1, `update` to
timestamp 2, then `delete`: the delete looks the id up in the time index
under its current timestamp 2, finds no bucket, and hits the
`.expect("Elements in in-memory store should be in index too")` failure
branch — the operation sequence of successful calls reaches the
supposedly-unreachable panic, refuting totality as claimed. -/
theorem c10_delete_reaches_expect :
    runOps updStart (updOps ++ [Op.delete 0]) = none := by decide

/-- Claim C4 (counterexample).  A store state with two live records sharing
timestamp 5, iterated with id 1 before id 0: `search_range` under `NoIndex`
returns them sorted by timestamp only (`sort_unstable_by_key`), leaving the
equal-timestamp ids in iteration order `[1, 0]` — not in ascending
`UniqueId` order as the claim asserts for every strategy. -/
theorem c4_counterexample :
    Series.search_range (SeriesState.mk cexMap IndexState.noIndex []) ⟨.unbounded, .unbounded⟩
        = some [(1, ⟨5, [], 0⟩), (0, ⟨5, [], 0⟩)] ∧
    ¬ List.Sorted tsIdLt [((1 : UniqueId), (⟨5, [], 0⟩ : RData Nat Nat)), (0, ⟨5, [], 0⟩)] := by
  exact ⟨by decide, by decide⟩

theorem mem_of_mapGet_eq_some {τ π : Type} (m : PrimaryMap τ π) (i : UniqueId)
    (v : RData τ π) (h : mapGet m i = some v) : (i, v) ∈ m := by
  induction m with
  | nil => simp [mapGet] at h
  | cons p m ih =>
    simp only [mapGet] at h
    by_cases hp : p.1 = i
    · rw [if_pos hp] at h
      have hv : p.2 = v := by simpa using h
      have : p = (i, v) := Prod.ext hp hv
      exact this ▸ List.mem_cons_self p m
    · rw [if_neg hp] at h
      exact List.mem_cons_of_mem p (ih h)

theorem mapGet_eq_some_of_mem {τ π : Type} (m : PrimaryMap τ π) (i : UniqueId)
    (v : RData τ π) (hn : (m.map Prod.fst).Nodup) (h : (i, v) ∈ m) :
    mapGet m i = some v := by
  induction m with
  | nil => cases h
  | cons p m ih =>
    rcases List.mem_cons.mp h with rfl | hm
    · simp [mapGet]
    · simp only [mapGet]
      have hn' := (List.nodup_cons.mp hn)
      by_cases hp : p.1 = i
      · exfalso
        apply hn'.1
        rw [hp]
        exact List.mem_map_of_mem Prod.fst hm
      · rw [if_neg hp]
        exact ih hn'.2 hm

theorem joinIds_spec {τ π : Type} (m : PrimaryMap τ π) (ids : List UniqueId)
    (h : ∀ i ∈ ids, ∃ v, mapGet m i = some v) :
    ∃ out, joinIds m ids = some out ∧ out.map Prod.fst = ids ∧
      ∀ p ∈ out, mapGet m p.1 = some p.2 := by
  induction ids with
  | nil => exact ⟨[], rfl, rfl, by simp⟩
  | cons i ids ih =>
    obtain ⟨v, hv⟩ := h i (List.mem_cons_self i ids)
    obtain ⟨out, ho, hmap, hget⟩ := ih (fun j hj => h j (List.mem_cons_of_mem i hj))
    refine ⟨(i, v) :: out, ?_, ?_, ?_⟩
    · simp [joinIds, hv, ho]
    · simp [hmap]
    · intro p hp
      rcases List.mem_cons.mp hp with rfl | hp'
      · exact hv
      · exact hget p hp'

theorem pairwise_flat_ids {τ π : Type} [LinearOrder τ] (m : PrimaryMap τ π) :
    ∀ l : TimeIndex τ,
      (l.map Prod.fst).Sorted (· < ·) →
      (∀ p ∈ l, p.2.Sorted (· < ·)) →
      (∀ p ∈ l, ∀ i ∈ p.2, (mapGet m i).map (fun v => v.ts) = some p.1) →
      (l.flatMap (fun p => p.2)).Pairwise (fun i₁ i₂ =>
        ∀ v₁ v₂, mapGet m i₁ = some v₁ → mapGet m i₂ = some v₂ →
          tsIdLt (i₁, v₁) (i₂, v₂)) := by
  intro l
  induction l with
  | nil => intro _ _ _; simp
  | cons p l ih =>
    intro hkeys hbuckets hmm
    simp only [List.flatMap_cons]
    rw [List.pairwise_append]
    have hts : ∀ i ∈ p.2, (mapGet m i).map (fun v => v.ts) = some p.1 :=
      hmm p (List.mem_cons_self p l)
    refine ⟨?_, ?_, ?_⟩
    · refine List.Pairwise.imp_of_mem ?_ (hbuckets p (List.mem_cons_self p l))
      intro a b ha hb hab v₁ v₂ h₁ h₂
      right
      have t1 := hts a ha
      have t2 := hts b hb
      rw [h₁] at t1
      rw [h₂] at t2
      refine ⟨?_, hab⟩
      have e1 : v₁.ts = p.1 := by simpa using t1
      have e2 : v₂.ts = p.1 := by simpa using t2
      rw [e1, e2]
    · refine ih ?_ ?_ ?_
      · exact (List.sorted_cons.mp hkeys).2
      · exact fun q hq => hbuckets q (List.mem_cons_of_mem p hq)
      · exact fun q hq => hmm q (List.mem_cons_of_mem p hq)
    · intro a ha b hb v₁ v₂ h₁ h₂
      obtain ⟨q, hq, hbq⟩ := List.mem_flatMap.mp hb
      left
      have t1 := hts a ha
      have t2 := hmm q (List.mem_cons_of_mem p hq) b hbq
      rw [h₁] at t1
      rw [h₂] at t2
      have e1 : v₁.ts = p.1 := by simpa using t1
      have e2 : v₂.ts = q.1 := by simpa using t2
      rw [e1, e2]
      exact (List.sorted_cons.mp hkeys).1 q.1 (List.mem_map_of_mem Prod.fst hq)

theorem retrieveRange_byTime_spec {τ π : Type} [LinearOrder τ] (m : PrimaryMap τ π)
    (tix : TimeIndex τ) (rg : TsRange τ) (hok : TIdxOk m tix) :
    ∃ out, retrieveRange (IndexState.byTime tix) m rg = some out ∧
      (∀ i v, (i, v) ∈ out ↔ ((i, v) ∈ m ∧ rg.contains v.ts = true)) ∧
      out.Sorted tsIdLt := by
  obtain ⟨hkeys, hbuckets, hmm, hcomp, hnodup⟩ := hok
  have hfil_sub : List.Sublist (tix.filter (fun p => rg.contains p.1)) tix :=
    List.filter_sublist tix
  have hfil_mem : ∀ p ∈ tix.filter (fun p => rg.contains p.1), p ∈ tix :=
    fun p hp => (List.mem_filter.mp hp).1
  have hmem_ids : ∀ i,
      (i ∈ (tix.filter (fun p => rg.contains p.1)).flatMap (fun p => p.2) ↔
        ∃ p ∈ tix, rg.contains p.1 = true ∧ i ∈ p.2) := by
    intro i
    rw [List.mem_flatMap]
    constructor
    · rintro ⟨p, hp, hip⟩
      obtain ⟨hpt, hpf⟩ := List.mem_filter.mp hp
      exact ⟨p, hpt, hpf, hip⟩
    · rintro ⟨p, hpt, hpf, hip⟩
      exact ⟨p, List.mem_filter.mpr ⟨hpt, hpf⟩, hip⟩
  have hlive : ∀ i ∈ (tix.filter (fun p => rg.contains p.1)).flatMap (fun p => p.2),
      ∃ v, mapGet m i = some v := by
    intro i hi
    obtain ⟨p, hpt, _, hip⟩ := (hmem_ids i).mp hi
    have := hmm p hpt i hip
    cases hg : mapGet m i with
    | none => rw [hg] at this; simp at this
    | some v => exact ⟨v, rfl⟩
  obtain ⟨out, ho, hmap, hget⟩ :=
    joinIds_spec m ((tix.filter (fun p => rg.contains p.1)).flatMap (fun p => p.2)) hlive
  refine ⟨out, ho, ?_, ?_⟩
  · intro i v
    constructor
    · intro hiv
      have hg := hget (i, v) hiv
      have him : i ∈ (tix.filter (fun p => rg.contains p.1)).flatMap (fun p => p.2) := by
        rw [← hmap]
        exact List.mem_map_of_mem Prod.fst hiv
      obtain ⟨p, hpt, hpf, hip⟩ := (hmem_ids i).mp him
      have hts := hmm p hpt i hip
      rw [hg] at hts
      have : v.ts = p.1 := by simpa using hts
      exact ⟨mem_of_mapGet_eq_some m i v hg, this ▸ hpf⟩
    · rintro ⟨hmem, hcont⟩
      have hg : mapGet m i = some v := mapGet_eq_some_of_mem m i v hnodup hmem
      obtain ⟨p, hpt, hpts, hip⟩ := hcomp (i, v) hmem
      have hpf : rg.contains p.1 = true := by rw [hpts]; exact hcont
      have him : i ∈ (tix.filter (fun p => rg.contains p.1)).flatMap (fun p => p.2) :=
        (hmem_ids i).mpr ⟨p, hpt, hpf, hip⟩
      rw [← hmap] at him
      obtain ⟨q, hq, hqi⟩ := List.mem_map.mp him
      have hgq := hget q hq
      rw [hqi] at hgq
      rw [hg] at hgq
      have : q.2 = v := by simpa using hgq.symm
      have hqv : q = (i, v) := Prod.ext hqi this
      exact hqv ▸ hq
  · have hpw := pairwise_flat_ids m (tix.filter (fun p => rg.contains p.1))
      (List.Pairwise.sublist (List.Sublist.map Prod.fst hfil_sub) hkeys)
      (fun p hp => hbuckets p (hfil_mem p hp))
      (fun p hp => hmm p (hfil_mem p hp))
    rw [← hmap] at hpw
    rw [List.pairwise_map] at hpw
    exact List.Pairwise.imp_of_mem
      (fun ha hb hr => hr _ _ (hget _ ha) (hget _ hb)) hpw

/-- Claim C4 (amended).  For every primary map and every timestamp range:
the full-scan strategies (`NoIndex`, `IndexByAllTags`, `IndexBySelectedTags`)
return a permutation of the live in-range records sorted by ascending
timestamp, with no guarantee on the order of equal-timestamp records; an
`IndexByTime` whose index is consistent with the primary map returns exactly
the live in-range records, sorted by ascending timestamp with ties in
ascending `UniqueId` order. -/
theorem c4_range_retrieval {τ π : Type} [LinearOrder τ] (m : PrimaryMap τ π)
    (rg : TsRange τ) :
    (retrieveRange IndexState.noIndex m rg = some (scanRange m rg) ∧
     (∀ ti, retrieveRange (IndexState.byAllTags ti) m rg = some (scanRange m rg)) ∧
     (∀ ti, retrieveRange (IndexState.bySelectedTags ti) m rg = some (scanRange m rg)) ∧
     List.Perm (scanRange m rg) (m.filter (fun p => rg.contains p.2.ts)) ∧
     (scanRange m rg).Sorted tsLe) ∧
    (∀ tix, TIdxOk m tix →
       ∃ out, retrieveRange (IndexState.byTime tix) m rg = some out ∧
         (∀ i v, (i, v) ∈ out ↔ ((i, v) ∈ m ∧ rg.contains v.ts = true)) ∧
         out.Sorted tsIdLt) := by
  refine ⟨⟨rfl, fun _ => rfl, fun _ => rfl, ?_, ?_⟩, ?_⟩
  · exact List.perm_insertionSort tsLe _
  · exact List.sorted_insertionSort tsLe _
  · exact fun tix hok => retrieveRange_byTime_spec m tix rg hok

/-- Witness for C4 (amended): a one-record store with a consistent
`IndexByTime`, queried over the unbounded range. -/
theorem c4_range_retrieval_witness :
    TIdxOk [((0 : UniqueId), (⟨1, [], 0⟩ : RData Nat Nat))] [(1, [0])] ∧
    (∃ out,
        retrieveRange (IndexState.byTime [(1, [0])])
            [((0 : UniqueId), (⟨1, [], 0⟩ : RData Nat Nat))] ⟨.unbounded, .unbounded⟩
          = some out ∧
        (∀ i v, (i, v) ∈ out ↔
          ((i, v) ∈ [((0 : UniqueId), (⟨1, [], 0⟩ : RData Nat Nat))] ∧
           TsRange.contains ⟨.unbounded, .unbounded⟩ v.ts = true)) ∧
        out.Sorted tsIdLt) :=
  ⟨by decide,
   (c4_range_retrieval [((0 : UniqueId), (⟨1, [], 0⟩ : RData Nat Nat))]
       ⟨.unbounded, .unbounded⟩).2 [(1, [0])] (by decide)⟩

/-- Claim C6: `put` fails with the "already exists" error, leaving the map,
index and log unchanged, exactly when the freshly assigned id is already a
key of the primary map; otherwise it inserts the pair into the primary map,
inserts it into the indexer, appends exactly one `{id, Some(value)}` log
entry, and returns the id. -/
theorem c6_put {τ π : Type} [LinearOrder τ] (s : SeriesState τ π) (id : UniqueId)
    (v : RData τ π) :
    ((mapGet s.element_for_key id).isSome →
        Series.put s id v = (.error .alreadyExists, s)) ∧
    (mapGet s.element_for_key id = none →
        Series.put s id v =
          (.ok id,
           { element_for_key := mapSet s.element_for_key id v,
             indexer := indexerInsert s.indexer id v,
             log := s.log ++ [⟨id, some v⟩] })) := by
  constructor
  · intro h
    unfold Series.put
    cases hg : mapGet s.element_for_key id with
    | none => rw [hg] at h; simp at h
    | some w => simp
  · intro h
    unfold Series.put
    rw [h]

/-- Witness for C6 at concrete inputs: an occupied map rejects the colliding
id unchanged, an empty map accepts it. -/
theorem c6_put_witness :
    ((mapGet ([(0, ⟨1, [], 0⟩)] : PrimaryMap Nat Nat) 0).isSome →
        Series.put ⟨[(0, ⟨1, [], 0⟩)], .noIndex, []⟩ 0 ⟨2, [], 0⟩
          = (.error .alreadyExists, ⟨[(0, ⟨1, [], 0⟩)], .noIndex, []⟩)) ∧
    (mapGet ([] : PrimaryMap Nat Nat) 0 = none →
        Series.put (⟨[], .noIndex, []⟩ : SeriesState Nat Nat) 0 ⟨2, [], 0⟩
          = (.ok 0,
             { element_for_key := mapSet [] 0 ⟨2, [], 0⟩,
               indexer := indexerInsert .noIndex 0 ⟨2, [], 0⟩,
               log := [] ++ [⟨0, some ⟨2, [], 0⟩⟩] })) :=
  ⟨(c6_put ⟨[(0, ⟨1, [], 0⟩)], .noIndex, []⟩ 0 ⟨2, [], 0⟩).1,
   (c6_put ⟨[], .noIndex, []⟩ 0 ⟨2, [], 0⟩).2⟩

/-- Claim C7: when the id is not a key of the primary map, both `update` and
`delete` return the "not found" error and hand back the series with primary
map, index structures and log file untouched. -/
theorem c7_not_found {τ π : Type} [LinearOrder τ] (s : SeriesState τ π)
    (id : UniqueId) (v : RData τ π) (h : mapGet s.element_for_key id = none) :
    Series.update s id v = some (.error .notFound, s) ∧
    Series.delete s id = some (.error .notFound, s) := by
  constructor
  · unfold Series.update; rw [h]
  · unfold Series.delete; rw [h]

/-- Witness for C7: a concrete one-record series rejects `update`/`delete`
of the absent id 7 unchanged. -/
theorem c7_not_found_witness :
    Series.update (⟨[(0, ⟨1, [], 0⟩)], .byTime [(1, [0])], []⟩ : SeriesState Nat Nat)
        7 ⟨2, [], 0⟩
      = some (.error .notFound, ⟨[(0, ⟨1, [], 0⟩)], .byTime [(1, [0])], []⟩) ∧
    Series.delete (⟨[(0, ⟨1, [], 0⟩)], .byTime [(1, [0])], []⟩ : SeriesState Nat Nat) 7
      = some (.error .notFound, ⟨[(0, ⟨1, [], 0⟩)], .byTime [(1, [0])], []⟩) :=
  c7_not_found ⟨[(0, ⟨1, [], 0⟩)], .byTime [(1, [0])], []⟩ 7 ⟨2, [], 0⟩ (by decide)

theorem mapGet_mapSet {τ π : Type} (m : PrimaryMap τ π) (i j : UniqueId)
    (v : RData τ π) :
    mapGet (mapSet m i v) j = if j = i then some v else mapGet m j := by
  induction m with
  | nil =>
    simp only [mapSet, mapGet]
    by_cases h : j = i
    · subst h; simp
    · rw [if_neg (fun hh => h hh.symm), if_neg h]
  | cons p m ih =>
    simp only [mapSet]
    by_cases hp : p.1 = i
    · rw [if_pos hp]
      simp only [mapGet]
      by_cases h : j = i
      · subst h; rw [if_pos rfl, if_pos rfl]
      · rw [if_neg (fun hh => h hh.symm), if_neg h, if_neg (fun hh => h (hp ▸ hh).symm)]
    · rw [if_neg hp]
      simp only [mapGet]
      by_cases hq : p.1 = j
      · rw [if_pos hq, if_neg (fun hh : j = i => hp (hq.trans hh)), if_pos hq]
      · rw [if_neg hq, if_neg hq, ih]

theorem mapGet_mapErase {τ π : Type} (m : PrimaryMap τ π) (i j : UniqueId) :
    mapGet (mapErase m i) j = if j = i then none else mapGet m j := by
  induction m with
  | nil => simp only [mapErase, mapGet]; rw [ite_self]
  | cons p m ih =>
    simp only [mapErase]
    by_cases hp : p.1 = i
    · rw [if_pos hp, ih]
      simp only [mapGet]
      by_cases h : j = i
      · rw [if_pos h, if_pos h]
      · rw [if_neg h, if_neg h, if_neg (fun hh => h (hp ▸ hh).symm)]
    · rw [if_neg hp]
      simp only [mapGet]
      by_cases hq : p.1 = j
      · rw [if_pos hq, if_neg (fun hh : j = i => hp (hq.trans hh)), if_pos hq]
      · rw [if_neg hq, ih, if_neg hq]

theorem loadFold_append_one {τ π : Type} (l : List (LogEntry τ π)) (e : LogEntry τ π) :
    loadFold (l ++ [e]) = loadStep (loadFold l) e := by
  unfold loadFold
  rw [List.foldl_append]
  rfl

theorem applyOp_log_inv {τ π : Type} [LinearOrder τ] (s s' : SeriesState τ π)
    (op : Op τ π) (h : applyOp s op = some s')
    (hinv : ∀ i, mapGet (loadFold s.log) i = mapGet s.element_for_key i) :
    ∀ i, mapGet (loadFold s'.log) i = mapGet s'.element_for_key i := by
  cases op with
  | put id e =>
    simp only [applyOp, Option.some_inj] at h
    unfold Series.put at h
    cases hg : mapGet s.element_for_key id with
    | some w =>
      rw [hg] at h
      simp only at h
      exact h ▸ hinv
    | none =>
      rw [hg] at h
      simp only at h
      subst h
      intro i
      simp only [loadFold_append_one, loadStep, mapGet_mapSet]
      rw [hinv i]
  | update id d =>
    simp only [applyOp] at h
    unfold Series.update at h
    cases hg : mapGet s.element_for_key id with
    | none =>
      rw [hg] at h
      simp at h
      subst h
      exact hinv
    | some w =>
      rw [hg] at h
      rw [Option.map_map] at h
      rcases Option.map_eq_some'.mp h with ⟨ix', hix, hs⟩
      subst hs
      intro i
      show mapGet (loadFold (s.log ++ [⟨id, some d⟩])) i
          = mapGet (mapSet s.element_for_key id d) i
      rw [loadFold_append_one]
      show mapGet (mapSet (loadFold s.log) id d) i = _
      rw [mapGet_mapSet, mapGet_mapSet, hinv i]
  | delete id =>
    simp only [applyOp] at h
    unfold Series.delete at h
    cases hg : mapGet s.element_for_key id with
    | none =>
      rw [hg] at h
      simp at h
      subst h
      exact hinv
    | some w =>
      rw [hg] at h
      rw [Option.map_map] at h
      rcases Option.map_eq_some'.mp h with ⟨ix', hix, hs⟩
      subst hs
      intro i
      show mapGet (loadFold (s.log ++ [⟨id, none⟩])) i
          = mapGet (mapErase s.element_for_key id) i
      rw [loadFold_append_one]
      show mapGet (mapErase (loadFold s.log) id) i = _
      rw [mapGet_mapErase, mapGet_mapErase, hinv i]

theorem runOps_log_inv {τ π : Type} [LinearOrder τ] (ops : List (Op τ π)) :
    ∀ s s' : SeriesState τ π, runOps s ops = some s' →
      (∀ i, mapGet (loadFold s.log) i = mapGet s.element_for_key i) →
      ∀ i, mapGet (loadFold s'.log) i = mapGet s'.element_for_key i := by
  induction ops with
  | nil =>
    intro s s' h hinv
    simp only [runOps, Option.some_inj] at h
    exact h ▸ hinv
  | cons op ops ih =>
    intro s s' h hinv
    simp only [runOps] at h
    rcases Option.bind_eq_some.mp h with ⟨s₁, h₁, h₂⟩
    exact ih s₁ s' h₂ (applyOp_log_inv s s₁ op h₁ hinv)

/-- Claim C3: for any operation sequence applied to an opened series,
re-opening the resulting file (with any indexer) yields a primary map with
exactly the lookups of the in-memory primary map at close time, and any two
opens of the same file yield the same primary map. -/
theorem c3_round_trip {τ π : Type} [LinearOrder τ] (entries : List (LogEntry τ π))
    (ix : IndexState τ) (ops : List (Op τ π)) (s' : SeriesState τ π)
    (h : runOps (open_with_indexer entries ix) ops = some s')
    (ix₂ ix₃ : IndexState τ) :
    (∀ i, mapGet (open_with_indexer s'.log ix₂).element_for_key i
          = mapGet s'.element_for_key i) ∧
    (open_with_indexer s'.log ix₂).element_for_key
      = (open_with_indexer s'.log ix₃).element_for_key := by
  refine ⟨?_, rfl⟩
  have base : ∀ i, mapGet (loadFold (open_with_indexer entries ix).log) i
      = mapGet (open_with_indexer entries ix).element_for_key i := fun _ => rfl
  exact runOps_log_inv ops _ s' h base

/-- Witness for C3: `put 0`, `put 1`, `delete 0` from an empty file; the
reopened map agrees with the in-memory map. -/
theorem c3_round_trip_witness :
    runOps (open_with_indexer ([] : List (LogEntry Nat Nat)) .noIndex)
        [Op.put 0 ⟨1, [], 0⟩, Op.put 1 ⟨2, [], 0⟩, Op.delete 0]
      = some ⟨[(1, ⟨2, [], 0⟩)], .noIndex,
              [⟨0, some ⟨1, [], 0⟩⟩, ⟨1, some ⟨2, [], 0⟩⟩, ⟨0, none⟩]⟩ ∧
    ((∀ i, mapGet (open_with_indexer
            ((⟨[(1, ⟨2, [], 0⟩)], .noIndex,
               [⟨0, some ⟨1, [], 0⟩⟩, ⟨1, some ⟨2, [], 0⟩⟩, ⟨0, none⟩]⟩ :
                 SeriesState Nat Nat).log) .noIndex).element_for_key i
          = mapGet (⟨[(1, ⟨2, [], 0⟩)], .noIndex,
               [⟨0, some ⟨1, [], 0⟩⟩, ⟨1, some ⟨2, [], 0⟩⟩, ⟨0, none⟩]⟩ :
                 SeriesState Nat Nat).element_for_key i) ∧
      (open_with_indexer ((⟨[(1, ⟨2, [], 0⟩)], .noIndex,
               [⟨0, some ⟨1, [], 0⟩⟩, ⟨1, some ⟨2, [], 0⟩⟩, ⟨0, none⟩]⟩ :
                 SeriesState Nat Nat).log) .noIndex).element_for_key
        = (open_with_indexer ((⟨[(1, ⟨2, [], 0⟩)], .noIndex,
               [⟨0, some ⟨1, [], 0⟩⟩, ⟨1, some ⟨2, [], 0⟩⟩, ⟨0, none⟩]⟩ :
                 SeriesState Nat Nat).log) (.byTime [])).element_for_key) :=
  ⟨by decide,
   c3_round_trip [] .noIndex [Op.put 0 ⟨1, [], 0⟩, Op.put 1 ⟨2, [], 0⟩, Op.delete 0]
     _ (by decide) .noIndex (.byTime [])⟩

/-- Claim C5: `load_file` succeeds exactly when every line decodes, and on
success the resulting primary map is the in-file-order fold of the decoded
entries; a single malformed line aborts the whole load with the error. -/
theorem c5_load_all_or_nothing {τ π L : Type} (decode : L → Except Unit (LogEntry τ π))
    (lines : List L) (acc : PrimaryMap τ π) :
    ((load_file decode acc lines).isOk = true ↔
        ∀ l ∈ lines, (decode l).isOk = true) ∧
    (∀ es : List (LogEntry τ π),
        lines.map decode = es.map Except.ok →
        load_file decode acc lines = .ok (es.foldl loadStep acc)) := by
  induction lines generalizing acc with
  | nil =>
    refine ⟨by simp [load_file, Except.isOk, Except.toBool], ?_⟩
    intro es h
    cases es with
    | nil => rfl
    | cons r es' => simp at h
  | cons l ls ih =>
    constructor
    · cases hd : decode l with
      | error e =>
        simp only [load_file, hd]
        constructor
        · intro hh; simp [Except.isOk, Except.toBool] at hh
        · intro hall
          have := hall l (List.mem_cons_self l ls)
          rw [hd] at this
          simp [Except.isOk, Except.toBool] at this
      | ok r =>
        simp only [load_file, hd]
        rw [(ih (loadStep acc r)).1]
        simp [List.forall_mem_cons, hd, Except.isOk, Except.toBool]
    · intro es h
      cases es with
      | nil => simp at h
      | cons r es' =>
        simp only [List.map_cons, List.cons.injEq] at h
        obtain ⟨hd, hmap⟩ := h
        simp only [load_file, hd]
        rw [(ih (loadStep acc r)).2 es' hmap]
        rfl

/-- Witness for C5: decoding `Bool` lines where `true` decodes to a
tombstone entry and `false` is malformed; the single-line good file loads to
the fold, and the hypotheses are discharged concretely. -/
theorem c5_load_witness :
    (load_file (fun b : Bool =>
        if b then Except.ok (⟨0, none⟩ : LogEntry Nat Nat) else Except.error ())
        [] [true]).isOk = true ∧
    load_file (fun b : Bool =>
        if b then Except.ok (⟨0, none⟩ : LogEntry Nat Nat) else Except.error ())
        [] [true]
      = .ok (([⟨0, none⟩] : List (LogEntry Nat Nat)).foldl loadStep []) :=
  ⟨(c5_load_all_or_nothing _ [true] []).1.mpr (by decide),
   (c5_load_all_or_nothing _ [true] []).2 [⟨0, none⟩] (by rfl)⟩

theorem binarySearch_of_forall_lt (b : List UniqueId) (i : UniqueId)
    (h : ∀ x ∈ b, i < x) : binarySearch b i = .error 0 := by
  induction b with
  | nil => rfl
  | cons x b ih =>
    have hx : i < x := h x (List.mem_cons_self x b)
    have h1 : ¬ i = x := Nat.ne_of_lt hx
    have h2 : ¬ x < i := Nat.lt_asymm hx
    simp [binarySearch, h1, h2, ih (fun y hy => h y (List.mem_cons_of_mem x hy))]

theorem bucketInsert_cons_lt (x : UniqueId) (b : List UniqueId) (i : UniqueId)
    (hxi : x < i) : bucketInsert (x :: b) i = x :: bucketInsert b i := by
  have hne : ¬ i = x := fun hh => Nat.lt_irrefl x (hh ▸ hxi)
  simp only [bucketInsert, binarySearch]
  rw [if_neg hne]
  cases hb : binarySearch b i with
  | ok j =>
    show List.insertIdx (j + 1) i (x :: b) = x :: List.insertIdx j i b
    exact List.insertIdx_succ_cons b x i j
  | error j =>
    show List.insertIdx (if x < i then j + 1 else j) i (x :: b)
        = x :: List.insertIdx j i b
    rw [if_pos hxi]
    exact List.insertIdx_succ_cons b x i j

theorem bucketInsert_of_forall_lt (b : List UniqueId) (i : UniqueId)
    (h : ∀ x ∈ b, i < x) : bucketInsert b i = i :: b := by
  unfold bucketInsert
  rw [binarySearch_of_forall_lt b i h]
  exact List.insertIdx_zero b i

theorem bucketInsert_sorted_and_mem (b : List UniqueId) (i : UniqueId)
    (hs : b.Sorted (· < ·)) (hm : i ∉ b) :
    (bucketInsert b i).Sorted (· < ·) ∧ ∀ j, j ∈ bucketInsert b i ↔ j = i ∨ j ∈ b := by
  induction b with
  | nil =>
    rw [bucketInsert_of_forall_lt [] i (by simp)]
    exact ⟨List.sorted_singleton i, by simp⟩
  | cons x b ih =>
    have hx : ∀ y ∈ b, x < y := (List.sorted_cons.mp hs).1
    have hs' : b.Sorted (· < ·) := (List.sorted_cons.mp hs).2
    have hmi : i ≠ x := fun hh => hm (hh ▸ List.mem_cons_self x b)
    by_cases hlt : x < i
    · rw [bucketInsert_cons_lt x b i hlt]
      obtain ⟨ihs, ihm⟩ := ih hs' (fun hh => hm (List.mem_cons_of_mem x hh))
      constructor
      · rw [List.sorted_cons]
        refine ⟨fun y hy => ?_, ihs⟩
        rcases (ihm y).mp hy with rfl | hyb
        · exact hlt
        · exact hx y hyb
      · intro j
        simp only [List.mem_cons, ihm j]
        tauto
    · have hix : i < x := lt_of_le_of_ne (Nat.not_lt.mp hlt) hmi
      have hall : ∀ y ∈ x :: b, i < y := by
        intro y hy
        rcases List.mem_cons.mp hy with rfl | hyb
        · exact hix
        · exact lt_trans hix (hx y hyb)
      rw [bucketInsert_of_forall_lt _ i hall]
      constructor
      · rw [List.sorted_cons]
        exact ⟨hall, hs⟩
      · intro j
        simp [List.mem_cons]

theorem binarySearch_ok_of_mem (b : List UniqueId) (i : UniqueId) (hm : i ∈ b) :
    ∃ j, binarySearch b i = .ok j := by
  induction b with
  | nil => cases hm
  | cons x b ih =>
    by_cases hix : i = x
    · exact ⟨0, by simp [binarySearch, hix]⟩
    · have hmb : i ∈ b := (List.mem_cons.mp hm).resolve_left hix
      obtain ⟨j, hj⟩ := ih hmb
      exact ⟨j + 1, by simp [binarySearch, hix, hj]⟩

theorem bucketRemove_sorted (b : List UniqueId) (i : UniqueId)
    (hs : b.Sorted (· < ·)) (hm : i ∈ b) :
    ∃ b', bucketRemove b i = some b' ∧ b'.Sorted (· < ·) := by
  obtain ⟨j, hj⟩ := binarySearch_ok_of_mem b i hm
  refine ⟨b.eraseIdx j, by simp [bucketRemove, hj], ?_⟩
  exact List.Pairwise.sublist (List.eraseIdx_sublist b j) hs

theorem bucket_ops_sorted_aux (ops : List BOp) :
    ∀ b : List UniqueId, b.Sorted (· < ·) → validBucketOps b ops = true →
      ∃ b', runBucketOps b ops = some b' ∧ b'.Sorted (· < ·) := by
  induction ops with
  | nil => exact fun b hs _ => ⟨b, rfl, hs⟩
  | cons op ops ih =>
    intro b hs hv
    cases op with
    | ins i =>
      simp only [validBucketOps, Bool.and_eq_true] at hv
      obtain ⟨hni, hv'⟩ := hv
      have hnm : i ∉ b := by simpa using hni
      obtain ⟨hbs, _⟩ := bucketInsert_sorted_and_mem b i hs hnm
      simpa [runBucketOps] using ih (bucketInsert b i) hbs hv'
    | rem i =>
      simp only [validBucketOps, Bool.and_eq_true] at hv
      obtain ⟨hci, hv'⟩ := hv
      have hmem : i ∈ b := by simpa using hci
      obtain ⟨b', hb', hbs⟩ := bucketRemove_sorted b i hs hmem
      rw [hb'] at hv'
      simp only [runBucketOps, hb']
      exact ih b' hbs hv'

/-- Claim C8: starting from an empty bucket, any sequence of splice
insertions of distinct (absent) ids and removals of present ids succeeds and
leaves the bucket sorted in strictly ascending `UniqueId` order with no
duplicates. -/
theorem c8_sorted_buckets (ops : List BOp) (h : validBucketOps [] ops = true) :
    ∃ b', runBucketOps [] ops = some b' ∧ b'.Sorted (· < ·) ∧ b'.Nodup := by
  obtain ⟨b', h1, h2⟩ := bucket_ops_sorted_aux ops [] (by simp) h
  exact ⟨b', h1, h2, h2.nodup⟩

/-- Witness for C8: three colliding-bucket insertions and one removal. -/
theorem c8_sorted_buckets_witness :
    validBucketOps [] [BOp.ins 2, BOp.ins 1, BOp.ins 3, BOp.rem 2] = true ∧
    ∃ b', runBucketOps [] [BOp.ins 2, BOp.ins 1, BOp.ins 3, BOp.rem 2] = some b' ∧
      b'.Sorted (· < ·) ∧ b'.Nodup :=
  ⟨by decide, c8_sorted_buckets [BOp.ins 2, BOp.ins 1, BOp.ins 3, BOp.rem 2] (by decide)⟩

/-- Claim C9 (supporting theorem for the implemented half).  For every pair
of criteria and every record, `And{lside, rside}` applies exactly when both
sides apply.  (The `Or` half of the claim has no corresponding code: the
source declares `struct Or` but implements no `Criteria` for it.) -/
theorem c9_and_apply {τ π A B : Type} [Criteria τ A] [Criteria τ B]
    (a : A) (b : B) (r : RData τ π) :
    Criteria.apply (And.mk a b) r = true ↔
      (Criteria.apply a r = true ∧ Criteria.apply b r = true) := by
  show (Criteria.apply a r && Criteria.apply b r) = true ↔ _
  simp

end Emseries
